import Mathlib

/-!
Shallow embedding of `src/addressbook.py` (CLI-Contactbook).

The repository's core is a validated-field contact store:
`_Name`, `_Phone`, `_Email`, `_Birthday` field validators, a `_Record`
aggregate, and an `AddressBook` ordered mapping with search, persistence
and birthday-countdown operations.  Every definition below is translated
from the Python source; definitions whose names start with `claim…` or
`…SpecAmended` instead formalise the words of the specification (they are
reference points that the source-derived definitions are compared with).

Modelling conventions:
* Python strings are `String` / `List Char`.
* Python exceptions are an explicit error type `PyErr`; each constructor
  corresponds to one `raise` site (or built-in error) in the source.
* Mutation is explicit state passing: a method that mutates `self` becomes
  a function `State → State × Option PyErr`, returning the post-state even
  when an exception is raised, so that atomicity is a theorem rather than
  a modelling artifact.
* `re.match` anchors at position 0; `$` matches at the end of the string
  or just before one final newline (CPython semantics, no `re.MULTILINE`).
  `\d` and `int()` are modelled over ASCII digits (CPython additionally
  accepts non-ASCII Unicode decimal digits; no claim depends on those) and
  `\s` as the ASCII/Latin-1 whitespace characters.
* `datetime.date` is a year/month/year triple validated like CPython
  (years 1..9999, real calendar days); day differences go through a
  days-from-civil (Rata Die style) conversion `toRD`.
-/

deriving instance DecidableEq for Except

/-! ### Characters and Python regex building blocks -/

/-- Whitespace characters matched by `\s` (and stripped by `int()`);
the ASCII/Latin-1 part of CPython's set. -/
def isPySpace (c : Char) : Bool :=
  c == ' ' || c == '\t' || c == '\n' || c == '\x0b' || c == '\x0c' || c == '\r' ||
  c == '\x1c' || c == '\x1d' || c == '\x1e' || c == '\x1f' || c == '\x85' || c == '\xa0'

/-- The character class `[\s-]` of the phone regex (addressbook.py:52). -/
def isSep (c : Char) : Bool :=
  c == '-' || isPySpace c

/-- CPython `$` (no MULTILINE): succeeds on the empty remainder or on a
remainder consisting of exactly one final newline. -/
def atDollar : List Char → Bool
  | [] => true
  | [c] => c == '\n'
  | _ :: _ :: _ => false

/-- Remove one trailing newline, if present (the suffix `$` tolerates). -/
def stripNl : List Char → List Char
  | [] => []
  | [c] => if c = '\n' then [] else [c]
  | c :: d :: rest => c :: stripNl (d :: rest)

/-- Matcher for a regex fragment `[p]{lo,hi}$` starting at the current
position: between `lo` and `hi` characters satisfying `p`, then `$`.
Acceptance is existential over the repetition count, which coincides with
backtracking regex matching for a boolean match. -/
def runThenDollar (p : Char → Bool) : Nat → Nat → List Char → Bool
  | lo, 0, cs => lo == 0 && atDollar cs
  | lo, hi + 1, cs =>
    (lo == 0 && atDollar cs) ||
    (match cs with
     | c :: rest => p c && runThenDollar p (lo - 1) hi rest
     | [] => false)

/-- The final `\d$` of the international phone branch: one digit then `$`. -/
def tailMatch : List Char → Bool
  | c :: rest => c.isDigit && atDollar rest
  | [] => false

/-- Matcher for `(?:\d[\s-]?){lo,hi}\d$` (addressbook.py:52): between `lo`
and `hi` units, each a digit with an optional single separator, then one
final digit and `$`.  Acceptance is existential over the unit count and
over taking/skipping each optional separator. -/
def unitsRep : Nat → Nat → List Char → Bool
  | lo, 0, cs => lo == 0 && tailMatch cs
  | lo, hi + 1, cs =>
    (lo == 0 && tailMatch cs) ||
    (match cs with
     | c :: s :: r2 =>
       c.isDigit && ((isSep s && unitsRep (lo - 1) hi r2) || unitsRep (lo - 1) hi (s :: r2))
     | [c] => c.isDigit && unitsRep (lo - 1) hi []
     | [] => false)

/-- First alternative of the phone regex: `^\+(?:\d[\s-]?){9,14}\d$`:
a leading literal `+`, then the units. -/
def phoneIntl : List Char → Bool
  | [] => false
  | c :: body => if c = '+' then unitsRep 9 14 body else false

/-- `_Phone.value` validation (addressbook.py:50-54):
`re.compile(r'^\+(?:\d[\s-]?){9,14}\d$|\d{9,10}$').match(value)`.
The second alternative has no `^` but `re.match` anchors it at position 0. -/
def phoneOk (s : String) : Bool :=
  phoneIntl s.data || runThenDollar Char.isDigit 9 10 s.data

/-- The character class `[A-Za-zА-Яа-яїЇєЄ]` of the name regex
(addressbook.py:35): ASCII letters, the contiguous Cyrillic range
U+0410–U+044F, plus the four Ukrainian letters listed explicitly. -/
def inNameClass (c : Char) : Bool :=
  ('A' ≤ c && c ≤ 'Z') || ('a' ≤ c && c ≤ 'z') || ('А' ≤ c && c ≤ 'я') ||
  c == 'ї' || c == 'Ї' || c == 'є' || c == 'Є'

/-- `_Name.value` validation (addressbook.py:33-39):
`re.match(r'^[A-Za-zА-Яа-яїЇєЄ]{2,25}$', value)`. -/
def nameOk (s : String) : Bool :=
  runThenDollar inNameClass 2 25 s.data

/-- The local-part class `[a-zA-Z0-9._%+-]` of the email regex. -/
def emailLocalChar (c : Char) : Bool :=
  c.isAlpha || c.isDigit || c == '.' || c == '_' || c == '%' || c == '+' || c == '-'

/-- The domain class `[a-zA-Z0-9.-]` of the email regex. -/
def emailDomChar (c : Char) : Bool :=
  c.isAlpha || c.isDigit || c == '.' || c == '-'

/-- `[a-zA-Z]*$`: zero or more ASCII letters then `$` (used after the two
mandatory TLD letters of `[a-zA-Z]{2,}$`). -/
def lettersDollar : List Char → Bool
  | [] => true
  | c :: rest => atDollar (c :: rest) || (c.isAlpha && lettersDollar rest)

/-- `[a-zA-Z]{2,}$`: at least two ASCII letters then `$`. -/
def tldRun : List Char → Bool
  | a :: b :: rest => a.isAlpha && b.isAlpha && lettersDollar rest
  | _ => false

/-- After at least one domain character: either the literal `.` followed by
the TLD, or one more domain character (backtracking acceptance of
`[a-zA-Z0-9.-]+\.[a-zA-Z]{2,}$` is existential over the split point). -/
def domRest : List Char → Bool
  | [] => false
  | c :: rest => (c == '.' && tldRun rest) || (emailDomChar c && domRest rest)

/-- `[a-zA-Z0-9.-]+\.[a-zA-Z]{2,}$`: one domain char, then `domRest`. -/
def domTld : List Char → Bool
  | [] => false
  | c :: rest => emailDomChar c && domRest rest

/-- Split a char list at the first `'@'`; `none` when there is none.
The regex class `[a-zA-Z0-9._%+-]` cannot match `'@'`, so the local part
matched by `^[a-zA-Z0-9._%+-]+@` always ends at the first `'@'`. -/
def splitAtAmp : List Char → Option (List Char × List Char)
  | [] => none
  | c :: r =>
    if c = '@' then some ([], r)
    else match splitAtAmp r with
         | some (a, b) => some (c :: a, b)
         | none => none

/-- `_Email.value` validation (addressbook.py:68-73):
`re.compile(r'^[a-zA-Z0-9._%+-]+@[a-zA-Z0-9.-]+\.[a-zA-Z]{2,}$').match(value)`. -/
def emailOk (s : String) : Bool :=
  match splitAtAmp s.data with
  | some (l, rest) => !l.isEmpty && l.all emailLocalChar && domTld rest
  | none => false

/-! ### Dates (`datetime.date`) -/

/-- A `datetime.date` value: the `(year, month, day)` triple.  Fields are
`Int` because they come from `int()` tokens; validity is a predicate. -/
structure Date where
  year : Int
  month : Int
  day : Int
deriving DecidableEq, Repr

/-- Gregorian leap year, as `calendar`/`datetime` compute it. -/
def isLeap (y : Int) : Bool :=
  y.emod 4 == 0 && (y.emod 100 != 0 || y.emod 400 == 0)

/-- Days in a month of a given year. -/
def daysInMonth (y m : Int) : Int :=
  if m = 2 then (if isLeap y then 29 else 28)
  else if m = 4 ∨ m = 6 ∨ m = 9 ∨ m = 11 then 30
  else 31

/-- The triples accepted by the `datetime.date` constructor:
years 1..9999, months 1..12, real calendar days. -/
def ValidDate (dt : Date) : Prop :=
  1 ≤ dt.year ∧ dt.year ≤ 9999 ∧ 1 ≤ dt.month ∧ dt.month ≤ 12 ∧
  1 ≤ dt.day ∧ dt.day ≤ daysInMonth dt.year dt.month

instance (dt : Date) : Decidable (ValidDate dt) := by
  unfold ValidDate; infer_instance

/-- `date` comparison: lexicographic on `(year, month, day)`. -/
def DateLt (a b : Date) : Prop :=
  a.year < b.year ∨ (a.year = b.year ∧
    (a.month < b.month ∨ (a.month = b.month ∧ a.day < b.day)))

instance (a b : Date) : Decidable (DateLt a b) := by
  unfold DateLt; infer_instance

/-- Days since 1970-01-01 of a civil date (standard days-from-civil
formula); `(a - b).days` in Python equals `toRD a - toRD b`. -/
def toRD (dt : Date) : Int :=
  let y : Int := if dt.month ≤ 2 then dt.year - 1 else dt.year
  let era : Int := y.ediv 400
  let yoe : Int := y - era * 400
  let mp : Int := (dt.month + 9).emod 12
  let doy : Int := (153 * mp + 2).ediv 5 + dt.day - 1
  let doe : Int := yoe * 365 + yoe.ediv 4 - yoe.ediv 100 + doy
  era * 146097 + doe - 719468

/-! ### Errors -/

/-- One constructor per `raise` site (or built-in exception) the embedded
code can hit.  CPython reports several of these as `ValueError`/`KeyError`
with distinct messages; distinct constructors model distinct messages. -/
inductive PyErr where
  /-- `ValueError("Name is not valid. …")` (addressbook.py:39) -/
  | nameInvalid
  /-- `ValueError("Phone number is not valid!")` (addressbook.py:53) -/
  | phoneInvalid
  /-- `ValueError("Provided email is not valid")` (addressbook.py:72) -/
  | emailInvalid
  /-- `ValueError` raised by `int()` or by unpacking `day, month, year = …`
  when the split does not yield exactly three integer tokens
  (addressbook.py:90) -/
  | bdayParse
  /-- `ValueError` raised by `date(year, month, day)` on an impossible
  calendar date (addressbook.py:91) -/
  | bdayOutOfRange
  /-- `ValueError("Birthday must be in the past")` (addressbook.py:93) -/
  | bdayNotPast
  /-- `ValueError("Phone … already exists in … record")` (addressbook.py:112) -/
  | phoneExists
  /-- `KeyError("Phone … is not found …")` / `"… does not exist …"`
  (addressbook.py:120,127) -/
  | phoneNotFound
  /-- `KeyError("Record with this name already exists.")` (addressbook.py:171) -/
  | recordExists
  /-- `KeyError("Record with name … does not exist")` (addressbook.py:177) -/
  | recordNotFound
  /-- `KeyError` from `book[key]` on a missing key (`UserDict.__getitem__`) -/
  | keyNotFound
  /-- `AttributeError` from reading an attribute `_Record` does not define -/
  | attributeError
  /-- `ValueError` from `date()`/`date.replace` inside `days_to_birthday`
  (addressbook.py:148-152) -/
  | dateOutOfRange
deriving DecidableEq, Repr

/-! ### Birthday parsing (`_Birthday.value`, addressbook.py:87-94) -/

/-- The separator class `[-|_|\\|/]` of `re.split` (addressbook.py:89).
As a character class it contains five characters: `-`, `|`, `_`, `\`, `/`
(the `|` are literals inside `[...]`, not alternation). -/
def isBdaySep (c : Char) : Bool :=
  c == '-' || c == '|' || c == '_' || c == '\\' || c == '/'

/-- `re.split` on a single-character class: split on every occurrence,
keeping empty pieces (so `re.split` of `""` is `[""]`). -/
def splitOnP (p : Char → Bool) : List Char → List (List Char)
  | [] => [[]]
  | c :: rest =>
    if p c then [] :: splitOnP p rest
    else match splitOnP p rest with
         | t :: ts => (c :: t) :: ts
         | [] => [[c]]

/-- The split `re.split(r"[-|_|\\|/]", value)` performs. -/
def splitSeps (cs : List Char) : List (List Char) :=
  splitOnP isBdaySep cs

/-- `int(token)`: strip surrounding whitespace, optional single sign, then
a nonempty run of digits.  (CPython also allows underscores between digits
and Unicode digits; no underscore can occur here because `_` is one of the
split separators, and non-ASCII digits are outside the modelled alphabet.) -/
def pyInt (cs : List Char) : Option Int :=
  let t := ((cs.dropWhile isPySpace).reverse.dropWhile isPySpace).reverse
  let digits : List Char → Option Int := fun ds =>
    if ds ≠ [] ∧ ds.all Char.isDigit then
      some (ds.foldl (fun n c => n * 10 + (c.toNat - 48)) (0 : Int))
    else none
  match t with
  | '+' :: ds => digits ds
  | '-' :: ds => (digits ds).map (fun n => -n)
  | ds => digits ds

/-- Sequence `pyInt` over all tokens (`map(int, …)`; every failure raises
the same `ValueError` kind, so order of evaluation is immaterial). -/
def tokInts : List (List Char) → Option (List Int)
  | [] => some []
  | t :: ts =>
    match pyInt t, tokInts ts with
    | some v, some vs => some (v :: vs)
    | _, _ => none

/-- `_Birthday.value` setter (addressbook.py:87-94):
`day, month, year = map(int, re.split(r"[-|_|\\|/]", value))`, then
`date(year, month, day)`, then the strictly-in-the-past check
(`if birthday >= date.today(): raise`).  `today` is a parameter standing
for `date.today()`. -/
def parseBirthday (today : Date) (s : String) : Except PyErr Date :=
  match splitSeps s.data with
  | [a, b, c] =>
    match pyInt a, pyInt b, pyInt c with
    | some dd, some mm, some yy =>
      if ValidDate ⟨yy, mm, dd⟩ then
        if DateLt ⟨yy, mm, dd⟩ today then .ok ⟨yy, mm, dd⟩
        else .error .bdayNotPast
      else .error .bdayOutOfRange
    | _, _, _ => .error .bdayParse
  | _ => .error .bdayParse

/-- `_Birthday.__str__` (addressbook.py:96-97): `strftime("%d-%m-%Y")`
with zero-padded fields. -/
def strBirthday (d : Date) : String :=
  let pad : Int → Nat → String := fun v w =>
    let s := toString v.toNat
    String.mk (List.replicate (w - s.length) '0') ++ s
  pad d.day 2 ++ "-" ++ pad d.month 2 ++ "-" ++ pad d.year 4

/-! ### Records (`_Record`, addressbook.py:100-160) -/

/-- `_Record`: one validated name, phone values in insertion order
(a `_Phone` is equal to another iff their `value` strings are equal, and
nothing but `value` is observable, so phones are modelled by their
values), optional birthday, optional email.  The class defines exactly
these four attributes — in particular there is no `bday` attribute. -/
structure Record where
  name : String
  phones : List String
  birthday : Option Date
  email : Option String
deriving DecidableEq, Repr

/-- `_Record.__init__` via `_Name(name)` (addressbook.py:101-105):
name validation happens before the record exists. -/
def mkRecord (name : String) : Except PyErr Record :=
  if nameOk name then .ok ⟨name, [], none, none⟩ else .error .nameInvalid

/-- Membership test `phone in self.phones` (`_Phone.__eq__` compares
`value` strings). -/
def memStr (x : String) : List String → Bool
  | [] => false
  | y :: ys => x == y || memStr x ys

/-- `list.remove`: drop the first element equal to `x`. -/
def eraseFirst (x : String) : List String → List String
  | [] => []
  | y :: ys => if x == y then ys else y :: eraseFirst x ys

/-- `change_phone`'s in-place overwrite: replace the first element equal
to `old` by `new` (position preserved). -/
def replaceFirst (old new : String) : List String → List String
  | [] => []
  | y :: ys => if old == y then new :: ys else y :: replaceFirst old new ys

/-- `_Record.add_phone` (addressbook.py:107-112): validate, then append
unless already present. -/
def addPhone (r : Record) (raw : String) : Record × Option PyErr :=
  if phoneOk raw then
    if memStr raw r.phones then (r, some .phoneExists)
    else ({ r with phones := r.phones ++ [raw] }, none)
  else (r, some .phoneInvalid)

/-- `_Record.change_phone` (addressbook.py:114-120): find the first phone
whose value equals `old` (no validation of `old`), then assign the new
value through the validating setter — which raises before storing when
`new` is invalid — and `break`; `KeyError` when no phone matches. -/
def changePhone (r : Record) (old new : String) : Record × Option PyErr :=
  if memStr old r.phones then
    if phoneOk new then ({ r with phones := replaceFirst old new r.phones }, none)
    else (r, some .phoneInvalid)
  else (r, some .phoneNotFound)

/-- `_Record.del_phone` (addressbook.py:122-127): `_Phone(phone)` first
(validation), then remove the first equal phone or `KeyError`. -/
def delPhone (r : Record) (raw : String) : Record × Option PyErr :=
  if phoneOk raw then
    if memStr raw r.phones then ({ r with phones := eraseFirst raw r.phones }, none)
    else (r, some .phoneNotFound)
  else (r, some .phoneInvalid)

/-- `_Record.set_birthday` (addressbook.py:129-131): `_Birthday(birthday)`
validates (raising before any assignment), then replaces the field. -/
def setBirthday (today : Date) (r : Record) (raw : String) : Record × Option PyErr :=
  match parseBirthday today raw with
  | .ok d => ({ r with birthday := some d }, none)
  | .error e => (r, some e)

/-- `_Record.del_birthday` (addressbook.py:133-134). -/
def delBirthday (r : Record) : Record × Option PyErr :=
  ({ r with birthday := none }, none)

/-- `_Record.set_email` (addressbook.py:136-138). -/
def setEmail (r : Record) (raw : String) : Record × Option PyErr :=
  if emailOk raw then ({ r with email := some raw }, none)
  else (r, some .emailInvalid)

/-- `_Record.del_email` (addressbook.py:140-141). -/
def delEmail (r : Record) : Record × Option PyErr :=
  ({ r with email := none }, none)

/-- The public mutating `_Record` operations. -/
inductive RecOp where
  | addPhone (raw : String)
  | changePhone (old new : String)
  | delPhone (raw : String)
  | setBirthday (raw : String)
  | delBirthday
  | setEmail (raw : String)
  | delEmail
deriving DecidableEq, Repr

def RecOp.isChangePhone : RecOp → Bool
  | .changePhone _ _ => true
  | _ => false

/-- Run one `_Record` method call; `today` stands for `date.today()` at
the moment of the call. -/
def applyRecOp (today : Date) (op : RecOp) (r : Record) : Record × Option PyErr :=
  match op with
  | .addPhone raw => addPhone r raw
  | .changePhone old new => changePhone r old new
  | .delPhone raw => delPhone r raw
  | .setBirthday raw => setBirthday today r raw
  | .delBirthday => delBirthday r
  | .setEmail raw => setEmail r raw
  | .delEmail => delEmail r

/-- Run a sequence of `_Record` method calls, keeping the state each call
leaves behind (a caller that catches exceptions and continues). -/
def applyRecOps (today : Date) (ops : List RecOp) (r : Record) : Record :=
  ops.foldl (fun r op => (applyRecOp today op r).1) r

/-- `_Record.days_to_birthday`, shared tail (addressbook.py:151-154):
roll to next year when the this-year date is already past, then subtract.
`self.birthday.value.replace(year=today.year + 1)` keeps the original
month and day, and its `ValueError` is not caught. -/
def bdayNext (today b bty0 : Date) : Except PyErr (Option Int) :=
  if DateLt bty0 today then
    if ValidDate ⟨today.year + 1, b.month, b.day⟩ then
      .ok (some (toRD ⟨today.year + 1, b.month, b.day⟩ - toRD today))
    else .error .dateOutOfRange
  else .ok (some (toRD bty0 - toRD today))

/-- `_Record.days_to_birthday` (addressbook.py:143-154): `None` without a
birthday; otherwise `replace(year=today.year)` under `try`, falling back
to `replace(year=today.year, day=today.day - 1)` on `ValueError` (only the
first `replace` is inside the `try`), then `bdayNext`. -/
def daysToBirthday (today : Date) (r : Record) : Except PyErr (Option Int) :=
  match r.birthday with
  | none => .ok none
  | some b =>
    if ValidDate ⟨today.year, b.month, b.day⟩ then
      bdayNext today b ⟨today.year, b.month, b.day⟩
    else if ValidDate ⟨today.year, b.month, today.day - 1⟩ then
      bdayNext today b ⟨today.year, b.month, today.day - 1⟩
    else .error .dateOutOfRange

/-! ### The address book (`AddressBook`, addressbook.py:163-221) -/

/-- `AddressBook` is a `UserDict`: an insertion-ordered mapping from name
strings to records, modelled as an association list whose keys are unique
(`dict` semantics; `add_record` also guards against duplicates).  The
class-level `NoteBook` collaborator is opaque and touches no claim. -/
structure AddressBook where
  data : List (String × Record)
deriving DecidableEq, Repr

def hasKey (d : List (String × Record)) (k : String) : Bool :=
  match d with
  | [] => false
  | (k2, _) :: rest => k == k2 || hasKey rest k

def lookupKey (d : List (String × Record)) (k : String) : Option Record :=
  match d with
  | [] => none
  | (k2, v) :: rest => if k == k2 then some v else lookupKey rest k

/-- `dict` assignment to an existing key: overwrite in place, keeping the
key's position. -/
def setKey (d : List (String × Record)) (k : String) (v : Record) :
    List (String × Record) :=
  match d with
  | [] => []
  | (k2, v2) :: rest =>
    if k == k2 then (k2, v) :: rest else (k2, v2) :: setKey rest k v

/-- `dict.pop` of a present key. -/
def removeKey (d : List (String × Record)) (k : String) : List (String × Record) :=
  match d with
  | [] => []
  | (k2, v2) :: rest => if k == k2 then rest else (k2, v2) :: removeKey rest k

/-- `AddressBook.add_record` (addressbook.py:167-171): membership test
first; `_Record(name)` is evaluated before the assignment, so a name that
fails validation raises before anything is stored. -/
def addRecord (b : AddressBook) (name : String) : AddressBook × Option PyErr :=
  if hasKey b.data name then (b, some .recordExists)
  else
    match mkRecord name with
    | .ok r => (⟨b.data ++ [(name, r)]⟩, none)
    | .error e => (b, some e)

/-- `AddressBook.del_record` (addressbook.py:173-177). -/
def delRecord (b : AddressBook) (name : String) : AddressBook × Option PyErr :=
  if hasKey b.data name then (⟨removeKey b.data name⟩, none)
  else (b, some .recordNotFound)

/-- A client-visible operation on the book: `book.add_record(…)`,
`book.del_record(…)`, or `book[key].method(…)` (where `book[key]` raises
`KeyError` when the key is absent and the record is mutated in place). -/
inductive BookOp where
  | onRecord (key : String) (op : RecOp)
  | addRecord (name : String)
  | delRecord (name : String)
deriving DecidableEq, Repr

def applyBookOp (today : Date) (op : BookOp) (b : AddressBook) :
    AddressBook × Option PyErr :=
  match op with
  | .onRecord key rop =>
    match lookupKey b.data key with
    | none => (b, some .keyNotFound)
    | some r =>
      let (r2, e) := applyRecOp today rop r
      (⟨setKey b.data key r2⟩, e)
  | .addRecord name => addRecord b name
  | .delRecord name => delRecord b name

/-! ### Search, birthday scan, persistence (addressbook.py:183-221) -/

/-- `needle in haystack` on Python strings: contiguous substring test. -/
def leadsWith : List Char → List Char → Bool
  | [], _ => true
  | _ :: _, [] => false
  | a :: n2, b :: h2 => a == b && leadsWith n2 h2

def containsSub (hay needle : List Char) : Bool :=
  match hay with
  | [] => needle.isEmpty
  | _ :: h2 => leadsWith needle hay || containsSub h2 needle

/-- `str.lower`, restricted to ASCII (`Char.toLower`).  The only query any
claim exercises is `""`, which lowercases to itself; Cyrillic lowercasing
is not modelled. -/
def pyLower (s : String) : String :=
  ⟨s.data.map Char.toLower⟩

/-- The match condition of `AddressBook.search` (addressbook.py:187-190):
lowered query in lowered name, or raw query in any phone value, or lowered
query in the rendered birthday, or lowered query in the lowered email. -/
def matchesQuery (q : String) (r : Record) : Bool :=
  containsSub (pyLower r.name).data (pyLower q).data ||
  r.phones.any (fun p => containsSub p.data q.data) ||
  (match r.birthday with
   | some d => containsSub (strBirthday d).data (pyLower q).data
   | none => false) ||
  (match r.email with
   | some e => containsSub (pyLower e).data (pyLower q).data
   | none => false)

/-- The formatted block `search` appends for a matching record
(addressbook.py:191-194). -/
def formatBlock (r : Record) : String :=
  "\n Name: " ++ r.name ++
  "\n Phones: " ++ (if r.phones.isEmpty then "No records" else String.intercalate ", " r.phones) ++
  "\n Birthday: " ++ (match r.birthday with | some d => strBirthday d | none => "No records") ++
  "\n Email: " ++ (match r.email with | some e => e | none => "No records") ++
  "\n"

/-- `AddressBook.search` (addressbook.py:183-196): one block per matching
record, in insertion order. -/
def search (b : AddressBook) (q : String) : List String :=
  b.data.foldr (fun kv acc => if matchesQuery q kv.2 then formatBlock kv.2 :: acc else acc) []

/-- `record.bday` inside `contacts_with_days_to_bday`
(addressbook.py:201): `_Record` defines only `name`, `phones`, `birthday`
and `email` (addressbook.py:101-105) and nothing in the repository ever
assigns a `bday` attribute, so this attribute access raises
`AttributeError` for every record. -/
def recordBday (_r : Record) : Except PyErr String :=
  .error .attributeError

/-- `AddressBook.contacts_with_days_to_bday` (addressbook.py:198-209):
the loop body's first statement evaluates `record.bday`, which raises on
every record, so the method raises on any book with at least one record;
with no records the loop is skipped and `"\n".join([])` is returned. -/
def contactsWithDaysToBday (b : AddressBook) (_days : Int) : Except PyErr String :=
  match b.data with
  | [] => .ok ""
  | (_, r) :: _ => (recordBday r).bind (fun _ => .error .attributeError)

/-- `AddressBook.save_records_to_file` (addressbook.py:211-213):
`pickle.dump(self.data, fw)`.  Pickle is modelled as an exact serializer:
the blob is the mapping value itself. -/
def saveRecordsToFile (b : AddressBook) : List (String × Record) :=
  b.data

/-- `dict.update(content)`: insert each incoming pair in order, existing
keys overwritten in place, new keys appended. -/
def dictInsert (d : List (String × Record)) (kv : String × Record) :
    List (String × Record) :=
  if hasKey d kv.1 then setKey d kv.1 kv.2 else d ++ [kv]

def dictUpdate (d src : List (String × Record)) : List (String × Record) :=
  src.foldl dictInsert d

/-- `AddressBook.read_records_from_file` (addressbook.py:215-221):
`pickle.load` then `self.data.update(content)`; a missing file
(`content = none`) is a silent no-op. -/
def readRecordsFromFile (b : AddressBook) (content : Option (List (String × Record))) :
    AddressBook :=
  match content with
  | some m => ⟨dictUpdate b.data m⟩
  | none => b

/-! ### Specification-side reference definitions

These formalise sentences of the specification / claims, worded
independently of the source translation above, to be compared with it. -/

/-- A digit run with optional single separators: a digit, then optionally
a separator between any two consecutive digits, ending in a digit.  The
separator alphabet is a parameter. -/
def altRunP (sep : Char → Bool) : List Char → Bool
  | [] => false
  | [c] => c.isDigit
  | c :: d :: rest =>
    c.isDigit && (if sep d then altRunP sep rest else altRunP sep (d :: rest))

/-- Number of digit characters. -/
def ndigits (cs : List Char) : Nat :=
  (cs.filter Char.isDigit).length

/-- Claim C5's phone format, exactly as the claim states it: a bare
9–10 digit string, or `+` followed by 9–14 digits optionally separated by
single spaces or dashes. -/
def claimPhoneSpec (s : String) : Bool :=
  (s.data.all Char.isDigit && decide (9 ≤ s.data.length) && decide (s.data.length ≤ 10))
  || (match s.data with
      | [] => false
      | c :: body =>
        c == '+' && altRunP (fun c2 => c2 == ' ' || c2 == '-') body &&
        decide (9 ≤ ndigits body) && decide (ndigits body ≤ 14))

/-- The amended phone format: after discarding one final newline (which
`$` tolerates), either a bare 9–10 digit string, or `+` followed by 10–15
digits where consecutive digits may be separated by a single dash or
whitespace character. -/
def phoneSpecAmended (s : String) : Bool :=
  (match s.data with
   | [] => false
   | c :: body =>
     c == '+' && altRunP isSep (stripNl body) &&
     decide (10 ≤ ndigits (stripNl body)) && decide (ndigits (stripNl body) ≤ 15))
  || ((stripNl s.data).all Char.isDigit &&
      decide (9 ≤ (stripNl s.data).length) && decide ((stripNl s.data).length ≤ 10))

/-- Claim C6's letter alphabet: ASCII letters or any Cyrillic letter
(Unicode Cyrillic block U+0400–U+04FF). -/
def claimLetter (c : Char) : Bool :=
  c.isAlpha || (('Ѐ' : Char) ≤ c && c ≤ ('ӿ' : Char))

/-- Claim C6's name format as stated: 2 to 25 such letters. -/
def claimNameSpec (s : String) : Bool :=
  s.data.all claimLetter && decide (2 ≤ s.data.length) && decide (s.data.length ≤ 25)

/-- The amended name format: after discarding one final newline tolerated
by `$`, 2–25 characters of the regex's actual alphabet (ASCII letters,
U+0410–U+044F, and `їЇєЄ`). -/
def nameSpecAmended (s : String) : Bool :=
  (stripNl s.data).all inNameClass &&
  decide (2 ≤ (stripNl s.data).length) && decide ((stripNl s.data).length ≤ 25)

/-- The birthday acceptance rule in the amended claim's words: split on
the five separator characters, require exactly three integer tokens
(day, month, year), then a valid calendar date strictly before today;
token failures and semantic failures are distinct errors. -/
def birthdaySpecAmended (today : Date) (s : String) : Except PyErr Date :=
  match tokInts (splitSeps s.data) with
  | some [dd, mm, yy] =>
    if ¬ ValidDate ⟨yy, mm, dd⟩ then .error .bdayOutOfRange
    else if DateLt ⟨yy, mm, dd⟩ today then .ok ⟨yy, mm, dd⟩
    else .error .bdayNotPast
  | some _ => .error .bdayParse
  | none => .error .bdayParse

/-- Claim C8's "next occurrence of the birthday's month and day" seen from
`today`: this year's date if it is today or later, else next year's. -/
def nextOccurrence (today : Date) (m d : Int) : Date :=
  if DateLt ⟨today.year, m, d⟩ today then ⟨today.year + 1, m, d⟩
  else ⟨today.year, m, d⟩

/-- The four separator characters named by the specification and claim C7
(`-`, `_`, `\`, `/` — without the pipe). -/
def claimBdaySep (c : Char) : Bool :=
  c == '-' || c == '_' || c == '\\' || c == '/'

/-- Number of entries stored under a key. -/
def countKey (d : List (String × Record)) (k : String) : Nat :=
  match d with
  | [] => 0
  | (k2, _) :: rest => (if k == k2 then 1 else 0) + countKey rest k

/-! ### Basic sanity checks of the embedding -/

example : phoneOk "0971234567" = true := by decide
example : phoneOk "+380 97 123 45 67" = true := by decide
example : phoneOk "12345678" = false := by decide
example : nameOk "Alexander" = true := by decide
example : nameOk "Алекс" = true := by decide
example : emailOk "abcdef@gmail.com" = true := by decide
example : parseBirthday ⟨2024, 1, 1⟩ "30-09-2022" = .ok ⟨2022, 9, 30⟩ := by decide
example : toRD ⟨1970, 1, 1⟩ = 0 := by decide
example : toRD ⟨2022, 9, 30⟩ - toRD ⟨2022, 1, 1⟩ = 272 := by decide

/-! ### Helper lemmas -/

theorem memStr_iff (x : String) : ∀ l : List String, memStr x l = true ↔ x ∈ l := by
  intro l
  induction l with
  | nil => simp [memStr]
  | cons y ys ih => simp [memStr, ih, List.mem_cons, beq_iff_eq]

theorem mem_eraseFirst (x a : String) :
    ∀ l : List String, a ∈ eraseFirst x l → a ∈ l := by
  intro l
  induction l with
  | nil => simp [eraseFirst]
  | cons y ys ih =>
    simp only [eraseFirst]
    split
    · intro h; exact List.mem_cons_of_mem _ h
    · intro h
      rcases List.mem_cons.mp h with h | h
      · exact h ▸ List.mem_cons_self _ _
      · exact List.mem_cons_of_mem _ (ih h)

theorem eraseFirst_nodup (x : String) :
    ∀ l : List String, l.Nodup → (eraseFirst x l).Nodup := by
  intro l
  induction l with
  | nil => simp [eraseFirst]
  | cons y ys ih =>
    intro h
    rcases List.nodup_cons.mp h with ⟨hy, hys⟩
    simp only [eraseFirst]
    split
    · exact hys
    · exact List.nodup_cons.mpr ⟨fun hmem => hy (mem_eraseFirst x y ys hmem), ih hys⟩

theorem nodup_snoc (l : List String) (a : String) (h : l.Nodup) (ha : a ∉ l) :
    (l ++ [a]).Nodup := by
  simp [List.nodup_append, h, ha]

theorem setKey_self (k : String) (r : Record) :
    ∀ d : List (String × Record), lookupKey d k = some r → setKey d k r = d := by
  intro d
  induction d with
  | nil => simp [lookupKey]
  | cons kv rest ih =>
    rcases kv with ⟨k2, v2⟩
    simp only [lookupKey, setKey]
    split
    · intro h; rw [(Option.some.injEq ..).mp h]
    · intro h; rw [ih h]

theorem hasKey_iff (k : String) :
    ∀ d : List (String × Record), hasKey d k = true ↔ k ∈ d.map Prod.fst := by
  intro d
  induction d with
  | nil => simp [hasKey]
  | cons kv rest ih => simp [hasKey, ih, List.mem_cons, beq_iff_eq]

theorem countKey_append (k : String) (d1 d2 : List (String × Record)) :
    countKey (d1 ++ d2) k = countKey d1 k + countKey d2 k := by
  induction d1 with
  | nil => simp [countKey]
  | cons kv rest ih => simp [countKey, ih]; omega

theorem countKey_eq_zero (k : String) :
    ∀ d : List (String × Record), hasKey d k = false → countKey d k = 0 := by
  intro d
  induction d with
  | nil => simp [countKey]
  | cons kv rest ih =>
    simp only [hasKey, countKey, Bool.or_eq_false_iff]
    intro ⟨h1, h2⟩
    simp [h1, ih h2]

theorem leadsWith_nil (h : List Char) : leadsWith [] h = true := by
  cases h <;> rfl

theorem containsSub_nil : ∀ h : List Char, containsSub h [] = true := by
  intro h
  induction h with
  | nil => rfl
  | cons c h2 ih => simp [containsSub, leadsWith_nil]

/-! ### C10: `search` with the empty query returns every record -/

theorem matchesQuery_empty (r : Record) : matchesQuery "" r = true := by
  have : (pyLower "").data = ([] : List Char) := rfl
  simp [matchesQuery, this, containsSub_nil]

/-- C10: for every AddressBook, `search("")` returns one formatted block
for every Record in the book, in key-insertion order — the empty string is
a substring of every name, so the first disjunct of the match condition
accepts every record. -/
theorem c10_search_empty_query_returns_all (b : AddressBook) :
    search b "" = b.data.map (fun kv => formatBlock kv.2) := by
  show List.foldr _ _ b.data = _
  induction b.data with
  | nil => rfl
  | cons kv rest ih =>
    rw [List.foldr_cons, List.map_cons, if_pos (matchesQuery_empty kv.2), ih]

/-! ### C1: `contacts_with_days_to_bday` crashes on any record -/

/-- C1 (code bug): on a book whose single record has a birthday set,
`contacts_with_days_to_bday` raises `AttributeError` instead of returning
the matching `"name, birthday"` lines — the loop reads `record.bday`, an
attribute `_Record` never defines (for a record whose days-to-birthday the
rest of the claim would have counted). -/
theorem c1_contacts_with_days_to_bday_raises :
    (∀ days : Int,
      contactsWithDaysToBday
        ⟨[("Alexander", ⟨"Alexander", ["111111111"], some ⟨2022, 9, 30⟩, none⟩)]⟩ days =
      .error .attributeError) ∧
    (⟨"Alexander", ["111111111"], some ⟨2022, 9, 30⟩, none⟩ : Record).birthday.isSome = true := by
  exact ⟨fun _ => rfl, by decide⟩

/-! ### C3: every failing operation leaves the prior state unchanged -/

theorem recOp_atomic (today : Date) (op : RecOp) (r : Record) :
    (applyRecOp today op r).2.isSome = true → (applyRecOp today op r).1 = r := by
  cases op with
  | addPhone raw =>
    simp only [applyRecOp, addPhone]
    split
    · split <;> simp
    · simp
  | changePhone old new =>
    simp only [applyRecOp, changePhone]
    split
    · split <;> simp
    · simp
  | delPhone raw =>
    simp only [applyRecOp, delPhone]
    split
    · split <;> simp
    · simp
  | setBirthday raw =>
    simp only [applyRecOp, setBirthday]
    split <;> simp
  | delBirthday => simp [applyRecOp, delBirthday]
  | setEmail raw =>
    simp only [applyRecOp, setEmail]
    split <;> simp
  | delEmail => simp [applyRecOp, delEmail]

/-- C3: whenever an operation on a Record or the AddressBook reports an
error, the state it returns is exactly the prior state; in particular
`del_phone` of a valid but absent phone fails with
`KeyError` (`NotFound`) and leaves the phone list unchanged. -/
theorem c3_failures_leave_state_unchanged :
    (∀ (today : Date) (op : BookOp) (b : AddressBook),
      (applyBookOp today op b).2.isSome = true → (applyBookOp today op b).1 = b) ∧
    (∀ (today : Date) (r : Record) (raw : String),
      phoneOk raw = true → memStr raw r.phones = false →
      applyRecOp today (RecOp.delPhone raw) r = (r, some PyErr.phoneNotFound)) := by
  constructor
  · intro today op b
    cases op with
    | onRecord key rop =>
      simp only [applyBookOp]
      cases hl : lookupKey b.data key with
      | none => simp
      | some r =>
        simp only
        intro h
        have hr : (applyRecOp today rop r).1 = r := recOp_atomic today rop r h
        rw [hr, setKey_self key r b.data hl]
    | addRecord name =>
      simp only [applyBookOp, addRecord]
      split
      · simp
      · split <;> simp
    | delRecord name =>
      simp only [applyBookOp, delRecord]
      split <;> simp
  · intro today r raw hok habs
    simp [applyRecOp, delPhone, hok, habs]

/-- Witness for C3 at a concrete input: deleting the valid phone
`"111111111"` from a record that does not hold it fails with
`phoneNotFound` and returns the record unchanged. -/
theorem c3_witness :
    phoneOk "111111111" = true ∧
    memStr "111111111" (["222222222"] : List String) = false ∧
    applyRecOp ⟨2024, 1, 1⟩ (RecOp.delPhone "111111111")
      ⟨"Alexander", ["222222222"], none, none⟩ =
      (⟨"Alexander", ["222222222"], none, none⟩, some PyErr.phoneNotFound) :=
  ⟨by decide, by decide,
    c3_failures_leave_state_unchanged.2 ⟨2024, 1, 1⟩
      ⟨"Alexander", ["222222222"], none, none⟩ "111111111" (by decide) (by decide)⟩

/-! ### C4: save/load round-trip -/

theorem dictInsert_new (d : List (String × Record)) (kv : String × Record)
    (h : hasKey d kv.1 = false) : dictInsert d kv = d ++ [kv] := by
  simp [dictInsert, h]

theorem dictUpdate_fresh :
    ∀ (src d : List (String × Record)),
      (((d ++ src).map Prod.fst).Nodup) → dictUpdate d src = d ++ src := by
  intro src
  induction src with
  | nil => intro d _; simp [dictUpdate]
  | cons kv rest ih =>
    intro d h
    have hk : hasKey d kv.1 = false := by
      rcases (List.nodup_append.mp (by simpa using h)) with ⟨_, _, hdisj⟩
      cases hcontra : hasKey d kv.1 with
      | false => rfl
      | true =>
        exact absurd (by simp : kv.1 ∈ (kv :: rest).map Prod.fst)
          (hdisj ((hasKey_iff kv.1 d).mp hcontra))
    show dictUpdate (dictInsert d kv) rest = d ++ kv :: rest
    rw [dictInsert_new d kv hk]
    have h2 : (((d ++ [kv]) ++ rest).map Prod.fst).Nodup := by
      simpa [List.append_assoc] using h
    rw [ih (d ++ [kv]) h2, List.append_assoc]
    rfl

/-- C4: saving an AddressBook and loading the saved blob into a fresh
(empty) AddressBook yields a mapping equal to the original — same keys in
the same order and, the records being plain values here, equal Name,
Phones, Email and Birthday for each key.  The hypothesis is the `dict`
invariant that keys are unique. -/
theorem c4_save_load_round_trip (b : AddressBook)
    (h : (b.data.map Prod.fst).Nodup) :
    readRecordsFromFile ⟨[]⟩ (some (saveRecordsToFile b)) = b := by
  show (⟨dictUpdate [] b.data⟩ : AddressBook) = b
  rw [dictUpdate_fresh b.data [] (by simpa using h)]
  rfl

/-- Witness for C4: a concrete two-record book survives the round trip. -/
theorem c4_witness :
    ((([("Alexander", (⟨"Alexander", ["111111111"], some ⟨2022, 9, 30⟩, none⟩ : Record)),
        ("Bohdan", (⟨"Bohdan", [], none, some "abc@gmail.com"⟩ : Record))]).map Prod.fst).Nodup) ∧
    readRecordsFromFile ⟨[]⟩
      (some (saveRecordsToFile
        ⟨[("Alexander", ⟨"Alexander", ["111111111"], some ⟨2022, 9, 30⟩, none⟩),
          ("Bohdan", ⟨"Bohdan", [], none, some "abc@gmail.com"⟩)]⟩)) =
      ⟨[("Alexander", ⟨"Alexander", ["111111111"], some ⟨2022, 9, 30⟩, none⟩),
        ("Bohdan", ⟨"Bohdan", [], none, some "abc@gmail.com"⟩)]⟩ :=
  ⟨by decide,
    c4_save_load_round_trip
      ⟨[("Alexander", ⟨"Alexander", ["111111111"], some ⟨2022, 9, 30⟩, none⟩),
        ("Bohdan", ⟨"Bohdan", [], none, some "abc@gmail.com"⟩)]⟩ (by decide)⟩

/-! ### C9: `add_record` -/

/-- Counterexample to C9 as stated: `"1"` is not a key of the empty book,
yet `add_record("1")` does not store a new empty Record — it fails with
the Name validation error (raised by `_Record("1")`), which is not
`DuplicateKey`. -/
theorem c9_counterexample :
    hasKey (AddressBook.data ⟨[]⟩) "1" = false ∧
    addRecord ⟨[]⟩ "1" = (⟨[]⟩, some PyErr.nameInvalid) := by
  decide

/-- C9 (amended): `add_record(name)` fails with `DuplicateKey` when `name`
is already a key; otherwise it stores a new empty Record when `name` is a
valid Name and fails with the Name validation error when it is not; with a
fresh valid name, a second `add_record` of the same name fails with
`DuplicateKey`, leaves the book as after the first call, and the mapping
then holds exactly one record for that name. -/
theorem c9_amended :
    (∀ (b : AddressBook) (name : String), hasKey b.data name = true →
      addRecord b name = (b, some PyErr.recordExists)) ∧
    (∀ (b : AddressBook) (name : String), hasKey b.data name = false →
      nameOk name = false → addRecord b name = (b, some PyErr.nameInvalid)) ∧
    (∀ (b : AddressBook) (name : String), hasKey b.data name = false →
      nameOk name = true →
      addRecord b name = (⟨b.data ++ [(name, ⟨name, [], none, none⟩)]⟩, none)) ∧
    (∀ (b : AddressBook) (name : String), hasKey b.data name = false →
      nameOk name = true →
      (addRecord (addRecord b name).1 name).2 = some PyErr.recordExists ∧
      (addRecord (addRecord b name).1 name).1 = (addRecord b name).1 ∧
      countKey (addRecord b name).1.data name = 1) := by
  have hbase : ∀ (b : AddressBook) (name : String), hasKey b.data name = false →
      nameOk name = true →
      addRecord b name = (⟨b.data ++ [(name, ⟨name, [], none, none⟩)]⟩, none) := by
    intro b name h hn
    simp [addRecord, h, mkRecord, hn]
  refine ⟨?_, ?_, hbase, ?_⟩
  · intro b name h; simp [addRecord, h]
  · intro b name h hn; simp [addRecord, h, mkRecord, hn]
  · intro b name h hn
    rw [hbase b name h hn]
    have hmem : hasKey (b.data ++ [(name, ⟨name, [], none, none⟩)]) name = true := by
      rw [hasKey_iff]; simp
    refine ⟨?_, ?_, ?_⟩
    · simp [addRecord, hmem]
    · simp [addRecord, hmem]
    · show countKey (b.data ++ [(name, ⟨name, [], none, none⟩)]) name = 1
      rw [countKey_append, countKey_eq_zero name b.data h]
      simp [countKey]

/-- Witness for C9 (amended) at a concrete input: adding `"Alex"` twice to
the empty book. -/
theorem c9_witness :
    hasKey (AddressBook.data ⟨[]⟩) "Alex" = false ∧ nameOk "Alex" = true ∧
    (addRecord (addRecord ⟨[]⟩ "Alex").1 "Alex").2 = some PyErr.recordExists ∧
    (addRecord (addRecord ⟨[]⟩ "Alex").1 "Alex").1 = (addRecord ⟨[]⟩ "Alex").1 ∧
    countKey (addRecord ⟨[]⟩ "Alex").1.data "Alex" = 1 := by
  refine ⟨by decide, by decide, ?_⟩
  have h := c9_amended.2.2.2 ⟨[]⟩ "Alex" (by decide) (by decide)
  exact ⟨h.1, h.2.1, h.2.2⟩

/-! ### C2: phones are pairwise distinct -/

/-- Counterexample to C2 as stated: from a fresh record, `add_phone` of
two distinct valid phones followed by `change_phone` of the first into the
second — a sequence of public Record operations — yields a phone list with
two equal values (`change_phone` overwrites in place without a duplicate
check). -/
theorem c2_counterexample :
    mkRecord "Alexander" = .ok ⟨"Alexander", [], none, none⟩ ∧
    (applyRecOps ⟨2024, 1, 1⟩
        [RecOp.addPhone "111111111", RecOp.addPhone "222222222",
         RecOp.changePhone "111111111" "222222222"]
        ⟨"Alexander", [], none, none⟩).phones = ["222222222", "222222222"] ∧
    ¬ (applyRecOps ⟨2024, 1, 1⟩
        [RecOp.addPhone "111111111", RecOp.addPhone "222222222",
         RecOp.changePhone "111111111" "222222222"]
        ⟨"Alexander", [], none, none⟩).phones.Nodup := by
  refine ⟨by decide, by decide, by decide⟩

theorem recOp_preserves_nodup (today : Date) (op : RecOp) (r : Record)
    (hop : op.isChangePhone = false) (h : r.phones.Nodup) :
    ((applyRecOp today op r).1).phones.Nodup := by
  cases op with
  | addPhone raw =>
    simp only [applyRecOp, addPhone]
    split
    · split
      · exact h
      · rename_i hok hmem
        exact nodup_snoc r.phones raw h
          (fun hin => by simp [(memStr_iff raw r.phones).mpr hin] at hmem)
    · exact h
  | changePhone old new => simp [RecOp.isChangePhone] at hop
  | delPhone raw =>
    simp only [applyRecOp, delPhone]
    split
    · split
      · exact eraseFirst_nodup raw r.phones h
      · exact h
    · exact h
  | setBirthday raw =>
    simp only [applyRecOp, setBirthday]
    split <;> exact h
  | delBirthday => exact h
  | setEmail raw =>
    simp only [applyRecOp, setEmail]
    split <;> exact h
  | delEmail => exact h

theorem recOps_preserve_nodup (today : Date) :
    ∀ (ops : List RecOp) (r : Record),
      (∀ op ∈ ops, op.isChangePhone = false) → r.phones.Nodup →
      (applyRecOps today ops r).phones.Nodup := by
  intro ops
  induction ops with
  | nil => intro r _ h; exact h
  | cons op rest ih =>
    intro r hops h
    show (applyRecOps today rest (applyRecOp today op r).1).phones.Nodup
    exact ih (applyRecOp today op r).1 (fun o ho => hops o (List.mem_cons_of_mem _ ho))
      (recOp_preserves_nodup today op r (hops op (List.mem_cons_self _ _)) h)

/-- C2 (amended): for every Record reachable from creation by a sequence
of the public Record operations other than `change_phone`, the stored
phone values are pairwise distinct.  (`change_phone` must be excluded: it
overwrites in place without a duplicate check, see the counterexample.) -/
theorem c2_amended (name : String) (today : Date) (ops : List RecOp) (r0 : Record)
    (h0 : mkRecord name = .ok r0)
    (hops : ∀ op ∈ ops, op.isChangePhone = false) :
    (applyRecOps today ops r0).phones.Nodup := by
  have hphones : r0.phones = [] := by
    unfold mkRecord at h0
    split at h0
    · cases h0; rfl
    · cases h0
  exact recOps_preserve_nodup today ops r0 hops (by rw [hphones]; exact List.nodup_nil)

/-- Witness for C2 (amended) at a concrete input: add two phones, delete
one, starting from a freshly created record. -/
theorem c2_witness :
    mkRecord "Alex" = .ok ⟨"Alex", [], none, none⟩ ∧
    (∀ op ∈ [RecOp.addPhone "111111111", RecOp.addPhone "222222222",
             RecOp.delPhone "111111111"], op.isChangePhone = false) ∧
    (applyRecOps ⟨2024, 1, 1⟩
      [RecOp.addPhone "111111111", RecOp.addPhone "222222222",
       RecOp.delPhone "111111111"] ⟨"Alex", [], none, none⟩).phones.Nodup :=
  ⟨by decide, by decide,
    c2_amended "Alex" ⟨2024, 1, 1⟩
      [RecOp.addPhone "111111111", RecOp.addPhone "222222222",
       RecOp.delPhone "111111111"] ⟨"Alex", [], none, none⟩ (by decide) (by decide)⟩

/-! ### C8: `days_to_birthday` -/

theorem daysInMonth_transfer (y1 y2 m d : Int) (hm : ¬(m = 2 ∧ d = 29))
    (hd : d ≤ daysInMonth y1 m) : d ≤ daysInMonth y2 m := by
  by_cases h2 : m = 2
  · subst h2
    have hne : d ≠ 29 := fun h => hm ⟨rfl, h⟩
    simp only [daysInMonth, if_pos rfl] at hd ⊢
    cases isLeap y1 <;> cases isLeap y2 <;> simp_all <;> omega
  · simp only [daysInMonth, if_neg h2] at hd ⊢
    exact hd

theorem validDate_swap_year (y : Int) (b : Date) (hb : ValidDate b)
    (hy1 : 1 ≤ y) (hy2 : y ≤ 9999) (hm : ¬(b.month = 2 ∧ b.day = 29)) :
    ValidDate ⟨y, b.month, b.day⟩ := by
  obtain ⟨_, _, h3, h4, h5, h6⟩ := hb
  exact ⟨hy1, hy2, h3, h4, h5, daysInMonth_transfer b.year y b.month b.day hm h6⟩

/-- Counterexample to C8 as stated: `today = 9999-10-01` is a legitimate
date value, the stored birthday `2022-09-30` is not a Feb 29, its Sept 30
occurrence this year has passed — yet `days_to_birthday` raises
(`date.replace(year=10000)` is out of range for `datetime.date`) instead
of returning the day count to the next occurrence. -/
theorem c8_counterexample :
    ValidDate ⟨9999, 10, 1⟩ ∧
    daysToBirthday ⟨9999, 10, 1⟩ ⟨"Alexander", [], some ⟨2022, 9, 30⟩, none⟩ =
      .error PyErr.dateOutOfRange := by
  constructor
  · decide
  · decide

/-- C8 (amended): without a birthday the result is the absent value; with
a non-Feb-29 birthday and any valid `today`, the result is the day count
from today to the next occurrence of the birthday's month/day — 0 when
today is that month/day, next year's occurrence when this year's has
passed — provided that when the rollover to next year happens,
`today.year + 1` is still representable (`≤ 9999`). -/
theorem c8_amended :
    (∀ (today : Date) (r : Record), r.birthday = none →
      daysToBirthday today r = .ok none) ∧
    (∀ (today : Date) (r : Record) (b : Date), r.birthday = some b →
      ValidDate b → ValidDate today → ¬(b.month = 2 ∧ b.day = 29) →
      (DateLt ⟨today.year, b.month, b.day⟩ today → today.year + 1 ≤ 9999) →
      daysToBirthday today r =
        .ok (some (toRD (nextOccurrence today b.month b.day) - toRD today))) := by
  constructor
  · intro today r h
    simp [daysToBirthday, h]
  · intro today r b hb hvb hvt hnf hcap
    have h1 : ValidDate ⟨today.year, b.month, b.day⟩ :=
      validDate_swap_year today.year b hvb hvt.1 hvt.2.1 hnf
    simp only [daysToBirthday, hb, if_pos h1]
    unfold bdayNext nextOccurrence
    by_cases hlt : DateLt ⟨today.year, b.month, b.day⟩ today
    · have h2 : ValidDate ⟨today.year + 1, b.month, b.day⟩ :=
        validDate_swap_year (today.year + 1) b hvb (by have := hvt.1; omega)
          (hcap hlt) hnf
      rw [if_pos hlt, if_pos hlt, if_pos h2]
    · rw [if_neg hlt, if_neg hlt]

/-- Witness for C8 (amended): birthday `30-09-2022` seen from
`2023-05-10` (this year's occurrence still ahead), and a record without a
birthday. -/
theorem c8_witness :
    daysToBirthday ⟨2023, 5, 10⟩ ⟨"Alexander", [], some ⟨2022, 9, 30⟩, none⟩ =
      .ok (some (toRD (nextOccurrence ⟨2023, 5, 10⟩ 9 30) - toRD ⟨2023, 5, 10⟩)) ∧
    daysToBirthday ⟨2023, 5, 10⟩ ⟨"Bohdan", [], none, none⟩ = .ok none :=
  ⟨c8_amended.2 ⟨2023, 5, 10⟩ ⟨"Alexander", [], some ⟨2022, 9, 30⟩, none⟩ ⟨2022, 9, 30⟩
      rfl (by decide) (by decide) (by decide) (by decide),
    c8_amended.1 ⟨2023, 5, 10⟩ ⟨"Bohdan", [], none, none⟩ rfl⟩

/-! ### C7: birthday parsing -/

theorem tokInts_length :
    ∀ (ts : List (List Char)) (l : List Int), tokInts ts = some l → l.length = ts.length := by
  intro ts
  induction ts with
  | nil =>
    intro l h
    simp only [tokInts, Option.some.injEq] at h
    rw [← h]; rfl
  | cons t ts2 ih =>
    intro l h
    simp only [tokInts] at h
    cases hp : pyInt t with
    | none => rw [hp] at h; cases h
    | some v =>
      rw [hp] at h
      cases hq : tokInts ts2 with
      | none => rw [hq] at h; cases h
      | some vs =>
        rw [hq] at h
        cases h
        simp [ih vs hq]

/-- Counterexample to C7 as stated: splitting `"1|1|2000"` on the four
separator characters the claim names leaves a single non-integer token, so
the claim requires a parse failure — but the code's separator class
`[-|_|\\|/]` also contains `|`, and construction succeeds with the date
2000-01-01. -/
theorem c7_counterexample :
    splitOnP claimBdaySep "1|1|2000".data = ["1|1|2000".data] ∧
    parseBirthday ⟨2024, 1, 1⟩ "1|1|2000" = .ok ⟨2000, 1, 1⟩ := by
  constructor
  · decide
  · decide

/-- C7 (amended): Birthday construction splits on the five separator
characters `-`, `_`, `\`, `/`, `|`; it succeeds iff the split yields
exactly three integer tokens in day-month-year order forming a valid
calendar date strictly earlier than today; too few/many or non-integer
tokens give the parse error, an impossible calendar date gives the
date-range error, and a date not strictly in the past gives the distinct
semantic error. -/
theorem c7_amended (today : Date) (s : String) :
    parseBirthday today s = birthdaySpecAmended today s := by
  unfold parseBirthday birthdaySpecAmended
  cases hts : splitSeps s.data with
  | nil => simp [tokInts]
  | cons a ts1 =>
    cases ts1 with
    | nil =>
      cases hp : pyInt a <;> simp [tokInts, hp]
    | cons b ts2 =>
      cases ts2 with
      | nil =>
        cases hp : pyInt a <;> cases hq : pyInt b <;> simp [tokInts, hp, hq]
      | cons c ts3 =>
        cases ts3 with
        | nil =>
          cases hp : pyInt a with
          | none => simp [tokInts, hp]
          | some dd =>
            cases hq : pyInt b with
            | none => simp [tokInts, hp, hq]
            | some mm =>
              cases hr : pyInt c with
              | none => simp [tokInts, hp, hq, hr]
              | some yy =>
                simp only [tokInts, hp, hq, hr]
                by_cases hv : ValidDate ⟨yy, mm, dd⟩ <;>
                  by_cases hl : DateLt ⟨yy, mm, dd⟩ today <;> simp [hv, hl]
        | cons d ts4 =>
          cases h : tokInts (a :: b :: c :: d :: ts4) with
          | none => simp
          | some l =>
            have hlen := tokInts_length _ _ h
            simp only [List.length_cons] at hlen
            rcases l with _ | ⟨x, _ | ⟨y, _ | ⟨z, _ | ⟨w, l2⟩⟩⟩⟩
            · simp at hlen
            · simp at hlen
            · simp at hlen
            · simp at hlen
            · simp

/-! ### C5/C6: regex language characterizations -/

theorem boolEq_of_iff {a b : Bool} (h : a = true ↔ b = true) : a = b := by
  cases a <;> cases b <;> simp_all

theorem atDollar_iff : ∀ cs : List Char, atDollar cs = true ↔ cs = [] ∨ cs = ['\n'] := by
  intro cs
  rcases cs with _ | ⟨c, _ | ⟨d, r⟩⟩ <;> simp [atDollar]

theorem stripNl_append_nl : ∀ cs : List Char, stripNl (cs ++ ['\n']) = cs := by
  intro cs
  induction cs with
  | nil => simp [stripNl]
  | cons c rest ih =>
    cases rest with
    | nil => simp [stripNl]
    | cons d rest2 =>
      show stripNl (c :: (d :: rest2 ++ ['\n'])) = c :: d :: rest2
      rw [show (d :: rest2 ++ ['\n'] : List Char) = d :: (rest2 ++ ['\n']) from rfl]
      show c :: stripNl (d :: (rest2 ++ ['\n'])) = c :: d :: rest2
      rw [show (d :: (rest2 ++ ['\n']) : List Char) = (d :: rest2) ++ ['\n'] from rfl, ih]

theorem stripNl_eq_self_or : ∀ cs : List Char, cs = stripNl cs ∨ cs = stripNl cs ++ ['\n'] := by
  intro cs
  induction cs with
  | nil => left; rfl
  | cons c rest ih =>
    cases rest with
    | nil =>
      by_cases hc : c = '\n'
      · subst hc; right; simp [stripNl]
      · left; simp [stripNl, hc]
    | cons d rest2 =>
      rcases ih with h | h
      · left; show c :: d :: rest2 = c :: stripNl (d :: rest2); rw [← h]
      · right
        show c :: d :: rest2 = (c :: stripNl (d :: rest2)) ++ ['\n']
        rw [List.cons_append, ← h]

theorem stripNl_of_not_mem : ∀ cs : List Char, '\n' ∉ cs → stripNl cs = cs := by
  intro cs
  induction cs with
  | nil => intro _; rfl
  | cons c rest ih =>
    cases rest with
    | nil =>
      intro h
      have hc : ¬ c = '\n' := fun hh => h (by simp [hh])
      simp [stripNl, hc]
    | cons d rest2 =>
      intro h
      have h2 : '\n' ∉ d :: rest2 := fun hm => h (List.mem_cons_of_mem _ hm)
      show c :: stripNl (d :: rest2) = c :: d :: rest2
      rw [ih h2]

theorem stripNl_of_all (p : Char → Bool) (hp : p '\n' = false) :
    ∀ cs : List Char, cs.all p = true → stripNl cs = cs := by
  intro cs hall
  refine stripNl_of_not_mem cs (fun hmem => ?_)
  rw [List.all_eq_true] at hall
  rw [hall '\n' hmem] at hp
  cases hp

/-- Converts the "matched prefix plus `$`-accepted remainder" form into a
statement about the input with one trailing newline removed. -/
theorem exists_post_iff_strip (Q : List Char → Prop)
    (hQ : ∀ pre, Q pre → stripNl pre = pre) (cs : List Char) :
    (∃ pre post, cs = pre ++ post ∧ Q pre ∧ atDollar post = true) ↔ Q (stripNl cs) := by
  constructor
  · rintro ⟨pre, post, rfl, hq, hd⟩
    rcases (atDollar_iff post).mp hd with rfl | rfl
    · rw [List.append_nil, hQ pre hq]; exact hq
    · rw [stripNl_append_nl]; exact hq
  · intro hq
    rcases stripNl_eq_self_or cs with h | h
    · exact ⟨stripNl cs, [], by rw [List.append_nil]; exact h, hq, rfl⟩
    · exact ⟨stripNl cs, ['\n'], h, hq, by decide⟩

theorem runThenDollar_exists (p : Char → Bool) :
    ∀ (hi lo : Nat) (cs : List Char),
      runThenDollar p lo hi cs = true ↔
      ∃ pre post, cs = pre ++ post ∧
        (pre.all p = true ∧ lo ≤ pre.length ∧ pre.length ≤ hi) ∧ atDollar post = true := by
  intro hi
  induction hi with
  | zero =>
    intro lo cs
    simp only [runThenDollar, Bool.and_eq_true, beq_iff_eq]
    constructor
    · rintro ⟨rfl, hd⟩
      exact ⟨[], cs, rfl, ⟨rfl, Nat.le_refl 0, Nat.le_refl 0⟩, hd⟩
    · rintro ⟨pre, post, rfl, ⟨hall, hlo, hhi⟩, hd⟩
      have hpre : pre = [] := List.eq_nil_of_length_eq_zero (Nat.le_zero.mp hhi)
      subst hpre
      exact ⟨Nat.le_zero.mp hlo, hd⟩
  | succ hi ih =>
    intro lo cs
    cases cs with
    | nil =>
      simp only [runThenDollar, Bool.or_eq_true, Bool.and_eq_true, beq_iff_eq]
      constructor
      · rintro (⟨rfl, _⟩ | h)
        · exact ⟨[], [], rfl, ⟨rfl, Nat.le_refl 0, Nat.zero_le _⟩, rfl⟩
        · cases h
      · rintro ⟨pre, post, heq, ⟨hall, hlo, hhi⟩, hd⟩
        rcases List.append_eq_nil.mp heq.symm with ⟨rfl, rfl⟩
        exact Or.inl ⟨Nat.le_zero.mp hlo, rfl⟩
    | cons c rest =>
      simp only [runThenDollar, Bool.or_eq_true, Bool.and_eq_true, beq_iff_eq]
      constructor
      · rintro (⟨rfl, hd⟩ | ⟨hc, hrun⟩)
        · rcases (atDollar_iff _).mp hd with h | h
          · cases h
          · exact ⟨[], ['\n'], h, ⟨rfl, Nat.le_refl 0, Nat.zero_le _⟩, by decide⟩
        · rcases (ih (lo - 1) rest).mp hrun with ⟨pre2, post, rfl, ⟨hall, hlo, hhi⟩, hd⟩
          refine ⟨c :: pre2, post, rfl, ⟨?_, ?_, ?_⟩, hd⟩
          · simp [List.all_cons, hc, hall]
          · simp only [List.length_cons]; omega
          · simp only [List.length_cons]; omega
      · rintro ⟨pre, post, heq, ⟨hall, hlo, hhi⟩, hd⟩
        cases pre with
        | nil =>
          left
          refine ⟨Nat.le_zero.mp hlo, ?_⟩
          rw [heq]; exact hd
        | cons x pre2 =>
          right
          injection heq with h1 h2
          subst h1
          rw [List.all_cons, Bool.and_eq_true] at hall
          constructor
          · exact hall.1
          · refine (ih (lo - 1) rest).mpr ⟨pre2, post, h2, ⟨hall.2, ?_, ?_⟩, hd⟩
            · simp only [List.length_cons] at hlo; omega
            · simp only [List.length_cons] at hhi; omega

theorem digit_not_isSep (c : Char) (h : c.isDigit = true) : isSep c = false := by
  cases hs : isSep c with
  | false => rfl
  | true =>
    exfalso
    simp only [isSep, isPySpace, Bool.or_eq_true, beq_iff_eq, or_assoc] at hs
    rcases hs with rfl | rfl | rfl | rfl | rfl | rfl | rfl | rfl | rfl | rfl | rfl | rfl | rfl <;>
      revert h <;> decide

theorem sep_not_digit (c : Char) (h : isSep c = true) : c.isDigit = false := by
  cases hd : c.isDigit with
  | false => rfl
  | true => rw [digit_not_isSep c hd] at h; cases h

theorem ndigits_cons_digit (c : Char) (cs : List Char) (h : c.isDigit = true) :
    ndigits (c :: cs) = ndigits cs + 1 := by
  simp [ndigits, List.filter_cons, h]

theorem ndigits_cons_sep (c : Char) (cs : List Char) (h : isSep c = true) :
    ndigits (c :: cs) = ndigits cs := by
  simp [ndigits, List.filter_cons, sep_not_digit c h]

theorem altRun_head_digit (sep : Char → Bool) :
    ∀ cs : List Char, altRunP sep cs = true → ∃ e rest, cs = e :: rest ∧ e.isDigit = true := by
  intro cs h
  rcases cs with _ | ⟨c, _ | ⟨d, r⟩⟩
  · cases h
  · exact ⟨c, [], rfl, h⟩
  · simp only [altRunP, Bool.and_eq_true] at h
    exact ⟨c, d :: r, rfl, h.1⟩

theorem altRun_count_pos : ∀ cs : List Char, altRunP isSep cs = true → 1 ≤ ndigits cs := by
  intro cs h
  rcases altRun_head_digit isSep cs h with ⟨e, rest, rfl, he⟩
  rw [ndigits_cons_digit e rest he]
  omega

theorem altRun_count_one (cs : List Char) (h : altRunP isSep cs = true)
    (h1 : ndigits cs = 1) : ∃ c, cs = [c] ∧ c.isDigit = true := by
  rcases cs with _ | ⟨c, _ | ⟨d, r⟩⟩
  · cases h
  · exact ⟨c, rfl, h⟩
  · exfalso
    simp only [altRunP, Bool.and_eq_true] at h
    obtain ⟨hc, hrest⟩ := h
    rw [ndigits_cons_digit c _ hc] at h1
    by_cases hsep : isSep d
    · rw [if_pos hsep] at hrest
      have := altRun_count_pos r hrest
      rw [ndigits_cons_sep d r hsep] at h1
      omega
    · rw [if_neg hsep] at hrest
      have := altRun_count_pos (d :: r) hrest
      omega

theorem altRun_stripNl_aux :
    ∀ (n : Nat) (cs : List Char), cs.length ≤ n → altRunP isSep cs = true →
      stripNl cs = cs := by
  intro n
  induction n with
  | zero =>
    intro cs hlen _
    have hnil : cs = [] := List.length_eq_zero.mp (Nat.le_zero.mp hlen)
    subst hnil
    rfl
  | succ n ih =>
    intro cs hlen halt
    rcases cs with _ | ⟨c, _ | ⟨d, rest⟩⟩
    · rfl
    · have hc : ¬ c = '\n' := by
        intro hh
        rw [hh] at halt
        exact absurd halt (by decide)
      simp [stripNl, hc]
    · simp only [altRunP, Bool.and_eq_true] at halt
      obtain ⟨hc, hrest⟩ := halt
      by_cases hsep : isSep d
      · rw [if_pos hsep] at hrest
        rcases rest with _ | ⟨e, rest2⟩
        · cases hrest
        · have h2 := ih (e :: rest2) (by simp at hlen ⊢; omega) hrest
          show c :: stripNl (d :: e :: rest2) = c :: d :: e :: rest2
          rw [show stripNl (d :: e :: rest2) = d :: stripNl (e :: rest2) from rfl, h2]
      · rw [if_neg hsep] at hrest
        have h2 := ih (d :: rest) (by simp at hlen ⊢; omega) hrest
        show c :: stripNl (d :: rest) = c :: d :: rest
        rw [h2]

theorem altRun_stripNl (cs : List Char) (h : altRunP isSep cs = true) :
    stripNl cs = cs :=
  altRun_stripNl_aux cs.length cs (Nat.le_refl _) h

theorem unitsRep_nil (lo hi : Nat) : unitsRep lo hi [] = false := by
  cases hi <;> simp [unitsRep, tailMatch]

theorem unitsRep_exists :
    ∀ (hi lo : Nat) (cs : List Char),
      unitsRep lo hi cs = true ↔
      ∃ pre post, cs = pre ++ post ∧
        (altRunP isSep pre = true ∧ lo + 1 ≤ ndigits pre ∧ ndigits pre ≤ hi + 1) ∧
        atDollar post = true := by
  intro hi
  induction hi with
  | zero =>
    intro lo cs
    simp only [unitsRep, Bool.and_eq_true, beq_iff_eq]
    constructor
    · rintro ⟨rfl, htail⟩
      rcases cs with _ | ⟨c, rest⟩
      · cases htail
      · simp only [tailMatch, Bool.and_eq_true] at htail
        obtain ⟨hcd, hd⟩ := htail
        have h1 : ndigits [c] = 1 := by simp [ndigits, hcd]
        refine ⟨[c], rest, rfl, ⟨by simpa [altRunP] using hcd, ?_, ?_⟩, hd⟩
        · rw [h1]
        · rw [h1]
    · rintro ⟨pre, post, rfl, ⟨halt, hlo, hhi⟩, hd⟩
      have h1 : ndigits pre = 1 := Nat.le_antisymm hhi (altRun_count_pos pre halt)
      rcases altRun_count_one pre halt h1 with ⟨c, rfl, hcd⟩
      have hlo0 : lo = 0 := by omega
      subst hlo0
      refine ⟨rfl, ?_⟩
      simp only [List.cons_append, List.nil_append, tailMatch, Bool.and_eq_true]
      exact ⟨hcd, hd⟩
  | succ hi ih =>
    intro lo cs
    rcases cs with _ | ⟨c, _ | ⟨s, r2⟩⟩
    · constructor
      · intro h; rw [unitsRep_nil] at h; cases h
      · rintro ⟨pre, post, heq, ⟨halt, _, _⟩, _⟩
        rcases List.append_eq_nil.mp heq.symm with ⟨rfl, rfl⟩
        cases halt
    · simp only [unitsRep, Bool.or_eq_true, Bool.and_eq_true, beq_iff_eq]
      constructor
      · rintro (⟨rfl, htail⟩ | ⟨hcd, hrun⟩)
        · simp only [tailMatch, Bool.and_eq_true] at htail
          obtain ⟨hcd, hd⟩ := htail
          have h1 : ndigits [c] = 1 := by simp [ndigits, hcd]
          refine ⟨[c], [], by simp, ⟨by simpa [altRunP] using hcd, ?_, ?_⟩, hd⟩
          · rw [h1]
          · rw [h1]; omega
        · rw [unitsRep_nil] at hrun; cases hrun
      · rintro ⟨pre, post, heq, ⟨halt, hlo, hhi⟩, hd⟩
        cases pre with
        | nil => cases halt
        | cons x pre2 =>
          injection heq with h1 h2
          subst h1
          rcases List.append_eq_nil.mp h2.symm with ⟨rfl, rfl⟩
          left
          have hcd : c.isDigit = true := by simpa [altRunP] using halt
          have h1' : ndigits [c] = 1 := by simp [ndigits, hcd]
          refine ⟨by omega, ?_⟩
          simp [tailMatch, hcd, hd]
    · simp only [unitsRep, Bool.or_eq_true, Bool.and_eq_true, beq_iff_eq]
      constructor
      · rintro (⟨rfl, htail⟩ | ⟨hcd, (⟨hsep, hrun⟩ | hrun)⟩)
        · simp only [tailMatch, Bool.and_eq_true] at htail
          obtain ⟨hcd, hd⟩ := htail
          rcases (atDollar_iff _).mp hd with h | h
          · exact absurd h (by simp)
          · injection h with hs1 hs2
            subst hs1; subst hs2
            have h1 : ndigits [c] = 1 := by simp [ndigits, hcd]
            refine ⟨[c], ['\n'], rfl, ⟨by simpa [altRunP] using hcd, ?_, ?_⟩, by decide⟩
            · rw [h1]
            · rw [h1]; omega
        · rcases (ih (lo - 1) r2).mp hrun with ⟨pre2, post, rfl, ⟨halt2, hlo2, hhi2⟩, hd⟩
          have hpos := altRun_count_pos pre2 halt2
          refine ⟨c :: s :: pre2, post, rfl, ⟨?_, ?_, ?_⟩, hd⟩
          · simp [altRunP, hsep, hcd, halt2]
          · rw [ndigits_cons_digit c _ hcd, ndigits_cons_sep s _ hsep]
            omega
          · rw [ndigits_cons_digit c _ hcd, ndigits_cons_sep s _ hsep]
            omega
        · rcases (ih (lo - 1) (s :: r2)).mp hrun with ⟨pre2, post, heq2, ⟨halt2, hlo2, hhi2⟩, hd⟩
          have hpos := altRun_count_pos pre2 halt2
          rcases altRun_head_digit isSep pre2 halt2 with ⟨e, pre3, rfl, hed⟩
          refine ⟨c :: e :: pre3, post, by rw [List.cons_append, ← heq2], ⟨?_, ?_, ?_⟩, hd⟩
          · simp [altRunP, digit_not_isSep e hed, hcd, halt2]
          · rw [ndigits_cons_digit c _ hcd]
            omega
          · rw [ndigits_cons_digit c _ hcd]
            omega
      · rintro ⟨pre, post, heq, ⟨halt, hlo, hhi⟩, hd⟩
        cases pre with
        | nil => cases halt
        | cons x pre2 =>
          injection heq with h1 h2
          subst h1
          cases pre2 with
          | nil =>
            left
            have hcd : c.isDigit = true := by simpa [altRunP] using halt
            have h1' : ndigits [c] = 1 := by simp [ndigits, hcd]
            refine ⟨by omega, ?_⟩
            have h2b : s :: r2 = post := h2
            simp [tailMatch, hcd, h2b, hd]
          | cons y pre3 =>
            injection h2 with h3 h4
            subst h3
            right
            have hfacts : c.isDigit = true ∧
                (if isSep s then altRunP isSep pre3 else altRunP isSep (s :: pre3)) = true := by
              simpa [altRunP] using halt
            obtain ⟨hcd, hrest⟩ := hfacts
            refine ⟨hcd, ?_⟩
            by_cases hsep : isSep s
            · rw [if_pos hsep] at hrest
              left
              have hpos := altRun_count_pos pre3 hrest
              refine ⟨hsep, (ih (lo - 1) r2).mpr ⟨pre3, post, h4, ⟨hrest, ?_, ?_⟩, hd⟩⟩
              · rw [ndigits_cons_digit c _ hcd, ndigits_cons_sep s _ hsep] at hlo
                omega
              · rw [ndigits_cons_digit c _ hcd, ndigits_cons_sep s _ hsep] at hhi
                omega
            · rw [if_neg hsep] at hrest
              right
              have hpos := altRun_count_pos (s :: pre3) hrest
              refine (ih (lo - 1) (s :: r2)).mpr
                ⟨s :: pre3, post, by rw [List.cons_append, h4]; rfl, ⟨hrest, ?_, ?_⟩, hd⟩
              · rw [ndigits_cons_digit c _ hcd] at hlo
                omega
              · rw [ndigits_cons_digit c _ hcd] at hhi
                omega

/-- Counterexample to C5 as stated: `"+123456789"` is a `+`-prefixed group
of nine digits, inside the claimed 9–14 range, yet Phone construction
rejects it — the regex requires `{9,14}` digit units `plus` one final
digit, i.e. 10–15 digits after the `+`. -/
theorem c5_counterexample :
    claimPhoneSpec "+123456789" = true ∧ phoneOk "+123456789" = false := by
  constructor
  · decide
  · decide

/-- C5 (amended): Phone construction succeeds iff, after discarding one
final newline (which the regex's `$` tolerates), the string is a bare
9–10 digit string, or `+` followed by 10–15 digits where consecutive
digits may be separated by a single dash or whitespace character. -/
theorem c5_amended (s : String) : phoneOk s = phoneSpecAmended s := by
  apply boolEq_of_iff
  unfold phoneOk phoneSpecAmended
  cases hcs : s.data with
  | nil => decide
  | cons c body =>
    have hintl : phoneIntl (c :: body) = true ↔
        (c = '+' ∧ altRunP isSep (stripNl body) = true ∧
          10 ≤ ndigits (stripNl body) ∧ ndigits (stripNl body) ≤ 15) := by
      by_cases hc : c = '+'
      · subst hc
        simp only [phoneIntl, eq_self_iff_true, if_true]
        rw [unitsRep_exists]
        rw [exists_post_iff_strip
          (fun pre => altRunP isSep pre = true ∧ 9 + 1 ≤ ndigits pre ∧ ndigits pre ≤ 14 + 1)
          (fun pre hq => altRun_stripNl pre hq.1) body]
        simp
      · simp [phoneIntl, hc]
    have hbare : runThenDollar Char.isDigit 9 10 (c :: body) = true ↔
        ((stripNl (c :: body)).all Char.isDigit = true ∧
          9 ≤ (stripNl (c :: body)).length ∧ (stripNl (c :: body)).length ≤ 10) := by
      rw [runThenDollar_exists]
      rw [exists_post_iff_strip
        (fun pre => pre.all Char.isDigit = true ∧ 9 ≤ pre.length ∧ pre.length ≤ 10)
        (fun pre hq => stripNl_of_all Char.isDigit (by decide) pre hq.1) (c :: body)]
    simp only [Bool.or_eq_true, hintl, hbare, Bool.and_eq_true, decide_eq_true_eq,
      beq_iff_eq, and_assoc]

/-- Counterexample to C6 as stated: `"ёё"` is a string of two Cyrillic
letters (U+0451, inside the Cyrillic block), yet Name construction rejects
it — the regex's class covers only `А-Яа-я` (U+0410–U+044F) plus `їЇєЄ`,
which excludes `ё`, `і`, `ґ` and the rest of the block. -/
theorem c6_counterexample :
    claimNameSpec "ёё" = true ∧ nameOk "ёё" = false := by
  constructor
  · decide
  · decide

/-- C6 (amended): Name construction succeeds iff, after discarding one
final newline tolerated by `$`, the string consists of 2–25 characters
drawn from `A-Z`, `a-z`, U+0410–U+044F and `їЇєЄ`. -/
theorem c6_amended (s : String) : nameOk s = nameSpecAmended s := by
  apply boolEq_of_iff
  unfold nameOk nameSpecAmended
  rw [runThenDollar_exists]
  rw [exists_post_iff_strip
    (fun pre => pre.all inNameClass = true ∧ 2 ≤ pre.length ∧ pre.length ≤ 25)
    (fun pre hq => stripNl_of_all inNameClass (by decide) pre hq.1) s.data]
  simp [Bool.and_eq_true, decide_eq_true_eq, and_assoc]
